import Mathlib

/-!
# Verification of the Animated Expense Tracker (`src/components/ExpenseTracker.tsx`)

A shallow embedding of the expense-tracker component's logic.

Modelling conventions:

* JavaScript numbers are modelled by `JSNum`: exact rationals extended with
  `NaN` and the two infinities.  IEEE-754 rounding is outside the model
  (arithmetic on finite values is exact); the special values `NaN`, `Infinity`
  and `-Infinity` are modelled faithfully, because the component's validation
  (`Number.isNaN(amount) || amount <= 0`) and JSON serialisation distinguish
  them.  The separate float value `-0` is identified with `0`.
* React state updates become explicit state passing: `addTransaction` and
  `deleteTx` map the previous transaction list to the new one, and the
  balance animation effect becomes a small state machine (`AnimState`).
* `Date.now()` and `performance.now()` become explicit clock arguments.
* `localStorage` plus `JSON.parse`/`JSON.stringify` are modelled at the level
  of parse outcomes (`StoredDoc`) and structural JSON values (`Json`):
  `JSON.parse` of the string produced by `JSON.stringify` yields a
  structurally equal value, which is what the value-level model states.
-/

/-- A JavaScript number: an exact rational, `NaN`, `Infinity` or `-Infinity`. -/
inductive JSNum where
  | nan
  | posInf
  | negInf
  | num (q : ℚ)
deriving DecidableEq, Repr

/-- `Number.isNaN`. -/
def JSNum.isNaN : JSNum → Bool
  | .nan => true
  | _ => false

/-- `Number.isFinite`: true exactly for ordinary (rational) values. -/
def JSNum.isFinite : JSNum → Bool
  | .num _ => true
  | _ => false

/-- JS unary minus. -/
def JSNum.neg : JSNum → JSNum
  | .nan => .nan
  | .posInf => .negInf
  | .negInf => .posInf
  | .num q => .num (-q)

/-- JS addition (exact on finite values; `Infinity + -Infinity = NaN`). -/
def JSNum.add : JSNum → JSNum → JSNum
  | .nan, _ => .nan
  | _, .nan => .nan
  | .posInf, .negInf => .nan
  | .negInf, .posInf => .nan
  | .posInf, _ => .posInf
  | _, .posInf => .posInf
  | .negInf, _ => .negInf
  | _, .negInf => .negInf
  | .num a, .num b => .num (a + b)

/-- JS subtraction: `a - b = a + (-b)` (exact on finite values). -/
def JSNum.sub (a b : JSNum) : JSNum := a.add b.neg

/-- JS multiplication (`Infinity * 0 = NaN`, signs as in JS). -/
def JSNum.mul : JSNum → JSNum → JSNum
  | .nan, _ => .nan
  | _, .nan => .nan
  | .posInf, .posInf => .posInf
  | .posInf, .negInf => .negInf
  | .negInf, .posInf => .negInf
  | .negInf, .negInf => .posInf
  | .posInf, .num q => if q = 0 then .nan else if 0 < q then .posInf else .negInf
  | .num q, .posInf => if q = 0 then .nan else if 0 < q then .posInf else .negInf
  | .negInf, .num q => if q = 0 then .nan else if 0 < q then .negInf else .posInf
  | .num q, .negInf => if q = 0 then .nan else if 0 < q then .negInf else .posInf
  | .num a, .num b => .num (a * b)

/-- The JS comparison `x <= 0` (false on `NaN`). -/
def JSNum.leZero : JSNum → Bool
  | .nan => false
  | .posInf => false
  | .negInf => true
  | .num q => decide (q ≤ 0)

/-- A JS number is falsy exactly when it is `0`, `-0` or `NaN`. -/
def JSNum.falsy : JSNum → Bool
  | .nan => true
  | .num q => decide (q = 0)
  | _ => false

/-- `Number(x.toFixed(2))`: round to the nearest multiple of `1/100`, ties
toward the larger value (ECMA-262 `toFixed` picks the larger candidate n);
`NaN` and the infinities pass through (`toFixed` prints them and `Number`
reads them back). -/
def JSNum.toFixed2 : JSNum → JSNum
  | .num q => .num (((⌊q * 100 + 1 / 2⌋ : ℤ) : ℚ) / 100)
  | x => x

/-- The rational value of a finite JS number (`0` for the special values). -/
def JSNum.ratVal : JSNum → ℚ
  | .num q => q
  | _ => 0

theorem JSNum.addComm : ∀ a b : JSNum, a.add b = b.add a := by
  intro a b
  cases a <;> cases b <;> simp [JSNum.add, add_comm]

theorem JSNum.addAssoc : ∀ a b c : JSNum, (a.add b).add c = a.add (b.add c) := by
  intro a b c
  cases a <;> cases b <;> cases c <;> simp [JSNum.add, add_assoc]

theorem JSNum.addZero : ∀ a : JSNum, a.add (.num 0) = a := by
  intro a
  cases a <;> simp [JSNum.add]

theorem JSNum.zeroAdd : ∀ a : JSNum, (JSNum.num 0).add a = a := by
  intro a
  cases a <;> simp [JSNum.add]

instance : AddCommMonoid JSNum where
  add := JSNum.add
  zero := JSNum.num 0
  add_assoc := JSNum.addAssoc
  zero_add := JSNum.zeroAdd
  add_zero := JSNum.addZero
  add_comm := JSNum.addComm
  nsmul := fun n a => Nat.rec (JSNum.num 0) (fun _ ih => ih.add a) n
  nsmul_zero := fun _ => rfl
  nsmul_succ := fun _ _ => rfl

@[simp] theorem JSNum.addEq (a b : JSNum) : a.add b = a + b := rfl

@[simp] theorem JSNum.zeroEq : (JSNum.num 0) = 0 := rfl

/-- `type TxType = "Income" | "Expense"`. -/
inductive TxType where
  | Income
  | Expense
deriving DecidableEq, Repr

/-- The `Transaction` record of the component, with `amount` a JS number. -/
structure Transaction where
  id : String
  description : String
  amount : JSNum
  category : String
  type : TxType
  date : String
deriving DecidableEq, Repr

/-- The computed balance:
`transactions.reduce((acc, t) => acc + (t.type === "Income" ? t.amount : -t.amount), 0)`. -/
def balance (transactions : List Transaction) : JSNum :=
  transactions.foldl
    (fun acc t => acc.add (if t.type = TxType.Income then t.amount else t.amount.neg))
    (JSNum.num 0)

/-- The signed contribution of one record to the balance (spec §4.3: Income
records add their amount, Expense records subtract theirs). -/
def signedAmount (t : Transaction) : JSNum :=
  if t.type = TxType.Income then t.amount else t.amount.neg

/-- `String.prototype.trim` modelled on the character list (the common
whitespace characters; the full ECMA WhiteSpace set also has exotic Unicode
spaces, which no claim involves). -/
def isJsWhitespace (c : Char) : Bool :=
  c = ' ' || c = '\t' || c = '\n' || c = '\r' || c = '\x0b' || c = '\x0c' ||
    c = ' ' || c = '﻿'

/-- JS `s.trim()`. -/
def jsTrim (s : String) : String :=
  ⟨((s.data.dropWhile isJsWhitespace).reverse.dropWhile isJsWhitespace).reverse⟩

/-- `addTransaction` of the component.  `amount` is the result of
`parseFloat(amountStr)` (a JS builtin; e.g. `parseFloat "abc" = NaN`,
`parseFloat "Infinity" = Infinity`, `parseFloat "1e999" = Infinity`);
`now` is `Date.now()` in milliseconds.  `none` models the validation-failure
branch (`alert(...); return;`), which performs no state mutation; `some l`
is the new transaction list `[newTx, ...s]`. -/
def addTransaction (description : String) (amount : JSNum) (category : String)
    (type : TxType) (date : String) (now : Nat) (s : List Transaction) :
    Option (List Transaction) :=
  if jsTrim description = "" ∨ amount.isNaN = true ∨ amount.leZero = true then
    none
  else
    some ({ id := toString now
            description := jsTrim description
            amount := amount
            category := if category = "" then "Other" else category
            type := type
            date := date } :: s)

/-- `deleteTx`: `setTransactions((s) => s.filter((t) => t.id !== id))`. -/
def deleteTx (id : String) (s : List Transaction) : List Transaction :=
  s.filter (fun t => decide (t.id ≠ id))

example : balance [] = JSNum.num 0 := rfl
example : jsTrim "  " = "" := by decide
example : jsTrim " a " = "a" := by decide
example : (addTransaction "x" JSNum.posInf "Food" TxType.Expense "2024-01-01" 5 []).isSome = true := by decide
example : addTransaction " " (JSNum.num 3) "Food" TxType.Expense "2024-01-01" 5 [] = none := by decide

/-- The closure state of one animation run of the balance count-up effect:
`const from = prevBalanceRef.current; const to = balance; const start = performance.now()`. -/
structure AnimRun where
  fromVal : JSNum
  toVal : JSNum
  startTime : ℚ
deriving DecidableEq, Repr

/-- The balance animator's state: `prevBalanceRef.current`, the
`displayBalance` React state, and the scheduled animation frame (`none` when
no frame callback is pending, i.e. the animator is idle). -/
structure AnimState where
  prevBalance : JSNum
  displayBalance : JSNum
  run : Option AnimRun
deriving DecidableEq, Repr

/-- Initial component state: `useState(0)` for `displayBalance` and
`useRef<number>(0)` for `prevBalanceRef`; no frame scheduled. -/
def animInit : AnimState := ⟨JSNum.num 0, JSNum.num 0, none⟩

/-- `const duration = 550; // ms`. -/
def animDuration : ℚ := 550

/-- `const eased = 1 - Math.pow(1 - t, 3)` (ease-out cubic). -/
def easeOutCubic (t : ℚ) : ℚ := 1 - (1 - t) ^ 3

/-- The balance effect body, run whenever `balance` changes (and on mount):
the cleanup of the previous effect ran `cancelAnimationFrame(raf)` (the old
run is discarded), then the new effect captures
`from = prevBalanceRef.current`, `to = balance`, `start = performance.now()`
and schedules `step`. -/
def startAnim (s : AnimState) (balance : JSNum) (now : ℚ) : AnimState :=
  { s with run := some ⟨s.prevBalance, balance, now⟩ }

/-- One `step(now)` frame callback: `t = Math.min(1, (now - start)/duration)`,
`eased = 1 - (1-t)^3`, `setDisplayBalance(Number(current.toFixed(2)))`, and
either reschedule (`t < 1`) or finish, recording `prevBalanceRef.current = to`. -/
def stepFrame (s : AnimState) (now : ℚ) : AnimState :=
  match s.run with
  | none => s
  | some r =>
      let t := min 1 ((now - r.startTime) / animDuration)
      let eased := easeOutCubic t
      let current := r.fromVal.add ((r.toVal.sub r.fromVal).mul (.num eased))
      if t < 1 then
        { s with displayBalance := current.toFixed2 }
      else
        { prevBalance := r.toVal, displayBalance := current.toFixed2, run := none }

/-- A structural JSON value (what `JSON.parse` returns on success /
`JSON.stringify` serialises). -/
inductive Json where
  | null
  | bool (b : Bool)
  | num (q : ℚ)
  | str (s : String)
  | arr (elems : List Json)
  | obj (members : List (String × Json))

/-- The outcome of reading the persisted document: `localStorage.getItem`
returned `null` (missing key), the empty string (falsy, so `raw ? ... : []`
takes the `[]` branch), a string `JSON.parse` throws on, or a string that
parses to the JSON value `j`. -/
inductive StoredDoc where
  | missing
  | empty
  | malformed
  | parsed (j : Json)

/-- The `useState` initializer:
`try { const raw = localStorage.getItem(STORAGE_KEY); return raw ? JSON.parse(raw) : []; } catch { return []; }` —
the parsed value is returned as-is (no schema validation); every failure
path yields the empty array, and no exception escapes (the function is total). -/
def loadDoc : StoredDoc → Json
  | .missing => .arr []
  | .empty => .arr []
  | .malformed => .arr []
  | .parsed j => j

/-- `JSON.stringify` of one number: `NaN` and the infinities serialise as
`null`; finite values keep their (exact, in this model) value. -/
def encodeNum : JSNum → Json
  | .num q => .num q
  | _ => .null

/-- The serialised form of `t.type`. -/
def txTypeStr : TxType → String
  | .Income => "Income"
  | .Expense => "Expense"

/-- `JSON.stringify` of one transaction record (object member order is the
field creation order of the `Transaction` literal in `addTransaction`). -/
def encodeTx (t : Transaction) : Json :=
  .obj [("id", .str t.id), ("description", .str t.description),
        ("amount", encodeNum t.amount), ("category", .str t.category),
        ("type", .str (txTypeStr t.type)), ("date", .str t.date)]

/-- `JSON.stringify(transactions)`. -/
def encodeTxList (l : List Transaction) : Json :=
  .arr (l.map encodeTx)

/-- The persist effect `localStorage.setItem(STORAGE_KEY, JSON.stringify(transactions))`,
described by the parse outcome a later `getItem` + `JSON.parse` sees:
`JSON.stringify` of an array never produces a falsy string and always
round-trips through `JSON.parse` to a structurally equal value. -/
def saveDoc (l : List Transaction) : StoredDoc :=
  .parsed (encodeTxList l)

/-- Reading a JSON value as a string field. -/
def asStr : Json → Option String
  | .str s => some s
  | _ => none

/-- Reading a JSON value as a (finite) JS number. -/
def asNum : Json → Option JSNum
  | .num q => some (.num q)
  | _ => none

/-- Reading a serialised transaction type. -/
def asTxType : Json → Option TxType
  | .str "Income" => some .Income
  | .str "Expense" => some .Expense
  | _ => none

/-- Reading one JSON value as a `Transaction`, the structural inverse of
`encodeTx`: the component itself performs no such validation (it casts the
parsed value), so this is the reference decoder used to state what a parsed
value must look like to *be* a transaction record. -/
def decodeTx (j : Json) : Option Transaction :=
  match j with
  | .obj ms => do
      let id ← ms.lookup "id" >>= asStr
      let description ← ms.lookup "description" >>= asStr
      let amount ← ms.lookup "amount" >>= asNum
      let category ← ms.lookup "category" >>= asStr
      let type ← ms.lookup "type" >>= asTxType
      let date ← ms.lookup "date" >>= asStr
      pure ⟨id, description, amount, category, type, date⟩
  | _ => none

/-- Reading a list of JSON values as transactions (all must decode). -/
def decodeTxArr : List Json → Option (List Transaction)
  | [] => some []
  | j :: js => do
      let t ← decodeTx j
      let ts ← decodeTxArr js
      pure (t :: ts)

/-- Reading a whole JSON value as a transaction array. -/
def decodeTxList : Json → Option (List Transaction)
  | .arr es => decodeTxArr es
  | _ => none

example : decodeTx (encodeTx ⟨"1", "Coffee", JSNum.num 4, "Food", TxType.Expense, "2024-01-01"⟩)
    = some ⟨"1", "Coffee", JSNum.num 4, "Food", TxType.Expense, "2024-01-01"⟩ := by rfl

/-- `const expenseTx = transactions.filter((t) => t.type === "Expense");`. -/
def expenseTx (transactions : List Transaction) : List Transaction :=
  transactions.filter (fun t => decide (t.type = TxType.Expense))

/-- JS property read `o[k]` on a plain object modelled as its insertion-ordered
member list (`none` = `undefined`). -/
def getProp : List (String × JSNum) → String → Option JSNum
  | [], _ => none
  | (k, v) :: o, c => if k = c then some v else getProp o c

/-- JS property write `o[k] = v`: assignment to an existing key keeps its
position, a new key is appended (ES insertion order for string keys). -/
def setProp (o : List (String × JSNum)) (k : String) (v : JSNum) :
    List (String × JSNum) :=
  if (getProp o k).isSome then
    o.map (fun kv => if kv.1 = k then (k, v) else kv)
  else
    o ++ [(k, v)]

/-- `(acc[t.category] || 0)`: `undefined`, `0`, `-0` and `NaN` are falsy, so
`||` replaces them by `0`. -/
def jsOrZero : Option JSNum → JSNum
  | none => .num 0
  | some w => if w.falsy then .num 0 else w

/-- One step of the `reduce`: `acc[t.category] = (acc[t.category] || 0) + t.amount; return acc;`. -/
def groupStep (acc : List (String × JSNum)) (t : Transaction) :
    List (String × JSNum) :=
  setProp acc t.category ((jsOrZero (getProp acc t.category)).add t.amount)

/-- `const grouped = expenseTx.reduce<Record<string, number>>(..., {})`. -/
def grouped (transactions : List Transaction) : List (String × JSNum) :=
  (expenseTx transactions).foldl groupStep []

/-- The numeric value of a digit string. -/
def digitsToNat (s : String) : Nat :=
  s.data.foldl (fun n c => 10 * n + (c.toNat - 48)) 0

/-- ES array-index property key: the canonical decimal representation of an
integer `0 ≤ n < 2^32 - 1` ("0", "7", "42", ...; not "00", not "-1"). -/
def isArrayIndex (s : String) : Bool :=
  s ≠ "" && s.data.all Char.isDigit && (s = "0" || s.front ≠ '0') &&
    digitsToNat s < 4294967295

/-- Insert a key into a list sorted by ascending numeric value. -/
def insertByVal (k : String) : List String → List String
  | [] => [k]
  | x :: xs => if digitsToNat k ≤ digitsToNat x then k :: x :: xs
               else x :: insertByVal k xs

/-- Insertion sort by ascending numeric value. -/
def sortByVal : List String → List String
  | [] => []
  | x :: xs => insertByVal x (sortByVal xs)

/-- `Object.keys(o)` per ES `OrdinaryOwnPropertyKeys`: array-index keys first
in ascending numeric order, then the remaining string keys in insertion
order. -/
def objectKeys (o : List (String × JSNum)) : List String :=
  sortByVal ((o.map Prod.fst).filter isArrayIndex) ++
    (o.map Prod.fst).filter (fun k => ! isArrayIndex k)

/-- `const chartLabels = Object.keys(grouped);`. -/
def chartLabels (transactions : List Transaction) : List String :=
  objectKeys (grouped transactions)

/-- The spec's "first-seen order": each label at its first occurrence
(later duplicates are filtered out of the recursive result). -/
def firstSeen : List String → List String
  | [] => []
  | k :: ks => k :: (firstSeen ks).filter (fun x => decide (x ≠ k))

/-- The rational total of the Expense records of one category (spec §4.3). -/
def catSum (transactions : List Transaction) (c : String) : ℚ :=
  (((expenseTx transactions).filter (fun t => decide (t.category = c))).map
    (fun t => t.amount.ratVal)).sum

/-- The rational value behind an optional JS number (`0` when absent). -/
def optRat : Option JSNum → ℚ
  | some (.num q) => q
  | _ => 0

example : chartLabels
    [⟨"a", "lunch", JSNum.num 1, "Food", TxType.Expense, "d"⟩,
     ⟨"b", "misc", JSNum.num 2, "0", TxType.Expense, "d"⟩]
    = ["0", "Food"] := by decide
example : firstSeen ["Food", "0", "Food"] = ["Food", "0"] := by decide

/-- Sample records used in concrete witnesses. -/
def txCoffee : Transaction :=
  ⟨"1", "Coffee", JSNum.num 4, "Food", TxType.Expense, "2024-01-01"⟩

/-- Sample Income record used in concrete witnesses. -/
def txPaycheck : Transaction :=
  ⟨"2", "Paycheck", JSNum.num 1000, "Other", TxType.Income, "2024-01-02"⟩

theorem balance_foldl (l : List Transaction) (a : JSNum) :
    l.foldl
        (fun acc t => acc.add (if t.type = TxType.Income then t.amount else t.amount.neg)) a
      = a + (l.map signedAmount).sum := by
  induction l generalizing a with
  | nil => simp
  | cons x xs ih =>
      rw [List.foldl_cons, ih, List.map_cons, List.sum_cons, ← add_assoc]
      rfl

theorem balance_eq_sum (l : List Transaction) :
    balance l = (l.map signedAmount).sum := by
  have h := balance_foldl l (JSNum.num 0)
  simpa [balance] using h

/-- C2: `balance` is the signed sum of the records' amounts — Income records
contribute `+amount`, Expense records `-amount` (`signedAmount`) — and is
invariant under reordering of the record list. -/
theorem balance_signed_sum_perm_invariant (l l' : List Transaction) :
    balance l = (l.map signedAmount).sum ∧
      (List.Perm l l' → balance l = balance l') := by
  refine ⟨balance_eq_sum l, fun hp => ?_⟩
  rw [balance_eq_sum l, balance_eq_sum l']
  exact (hp.map signedAmount).sum_eq

/-- C2 witness: the spec's own example list, and its reversal, at concrete
records. -/
theorem balance_signed_sum_perm_invariant_witness :
    balance [txPaycheck, txCoffee]
        = (List.map signedAmount [txPaycheck, txCoffee]).sum ∧
      balance [txPaycheck, txCoffee] = balance [txCoffee, txPaycheck] :=
  ⟨(balance_signed_sum_perm_invariant [txPaycheck, txCoffee] [txCoffee, txPaycheck]).1,
    (balance_signed_sum_perm_invariant [txPaycheck, txCoffee] [txCoffee, txPaycheck]).2
      (List.Perm.swap txCoffee txPaycheck [])⟩

/-- C9: `deleteTx` is idempotent, and removing an id that no record carries
leaves the list unchanged (a no-op, not an error: `deleteTx` is total). -/
theorem deleteTx_idempotent_and_absent_noop (id : String) (s : List Transaction) :
    deleteTx id (deleteTx id s) = deleteTx id s ∧
      ((∀ t ∈ s, t.id ≠ id) → deleteTx id s = s) := by
  constructor
  · simp [deleteTx, List.filter_filter]
  · intro h
    simp only [deleteTx]
    rw [List.filter_eq_self]
    intro t ht
    simpa using h t ht

/-- C9 witness: removing an absent id twice at a concrete store. -/
theorem deleteTx_idempotent_and_absent_noop_witness :
    deleteTx "zzz" (deleteTx "zzz" [txCoffee]) = deleteTx "zzz" [txCoffee] ∧
      deleteTx "zzz" [txCoffee] = [txCoffee] :=
  ⟨(deleteTx_idempotent_and_absent_noop "zzz" [txCoffee]).1,
    (deleteTx_idempotent_and_absent_noop "zzz" [txCoffee]).2 (by decide)⟩

/-- C10: `deleteTx id` removes every record whose id matches (also when the
stored list, e.g. one loaded from storage, has duplicate ids), keeps every
other record, and preserves the relative order of the kept records (the
result is a sublist of the input). -/
theorem deleteTx_removes_all_matching_keeps_order (id : String) (s : List Transaction) :
    (∀ t ∈ deleteTx id s, t.id ≠ id) ∧
      List.Sublist (deleteTx id s) s ∧
      (∀ t ∈ s, t.id ≠ id → t ∈ deleteTx id s) := by
  refine ⟨fun t ht => ?_, List.filter_sublist s, fun t ht h => ?_⟩
  · simp only [deleteTx, List.mem_filter, decide_eq_true_eq] at ht
    exact ht.2
  · simp only [deleteTx, List.mem_filter, decide_eq_true_eq]
    exact ⟨ht, h⟩

/-- Spec-side notion used by claim C3: "a positive finite number". -/
def specPosFinite : JSNum → Bool
  | .num q => decide (0 < q)
  | _ => false

/-- C3 counterexample: with description `"x"` and amount
`parseFloat "Infinity" = Infinity` (not a positive *finite* number), the
validation passes (`Number.isNaN Infinity` is false and `Infinity <= 0` is
false) and the record list IS mutated — the claim says this input must fail
validation and leave the list unchanged. -/
theorem addTransaction_accepts_infinite_amount :
    addTransaction "x" JSNum.posInf "Food" TxType.Expense "2024-01-01" 5 []
        = some [{ id := "5", description := "x", amount := JSNum.posInf,
                  category := "Food", type := TxType.Expense, date := "2024-01-01" }]
      ∧ specPosFinite JSNum.posInf = false := by
  decide

/-- C3 (amended): `addTransaction` fails (returning `none`, mutating nothing)
exactly when the trimmed description is empty or the parsed amount is
neither a positive finite number nor `+Infinity` — i.e. `NaN`, zero,
negative and `-Infinity` are rejected, but `+Infinity` is accepted; and on
every input it either fails or exactly prepends the new record. -/
theorem addTransaction_validation_characterisation (description : String)
    (amount : JSNum) (category : String) (type : TxType) (date : String)
    (now : Nat) (s : List Transaction) :
    (addTransaction description amount category type date now s = none ↔
        (jsTrim description = "" ∨
          (specPosFinite amount = false ∧ amount ≠ JSNum.posInf))) ∧
      (addTransaction description amount category type date now s = none ∨
        addTransaction description amount category type date now s =
          some ({ id := toString now, description := jsTrim description,
                  amount := amount,
                  category := if category = "" then "Other" else category,
                  type := type, date := date } :: s)) := by
  constructor
  · cases amount with
    | nan => simp [addTransaction, specPosFinite, JSNum.isNaN, JSNum.leZero]
    | posInf => simp [addTransaction, specPosFinite, JSNum.isNaN, JSNum.leZero]
    | negInf => simp [addTransaction, specPosFinite, JSNum.isNaN, JSNum.leZero]
    | num q =>
        by_cases h : q ≤ 0
        · by_cases h2 : jsTrim description = "" <;>
            simp [addTransaction, specPosFinite, JSNum.isNaN, JSNum.leZero, h, h2,
              not_lt.mpr h]
        · rw [not_le] at h
          by_cases h2 : jsTrim description = "" <;>
            simp [addTransaction, specPosFinite, JSNum.isNaN, JSNum.leZero, h, h2,
              not_le.mpr h]
  · unfold addTransaction
    split
    · exact Or.inl rfl
    · exact Or.inr rfl

/-- C8 counterexample: two `addTransaction` calls in the same `Date.now()`
millisecond (`now = 5`) produce the id `"5"` twice — the second add's id is
not distinct from the id already in the store. -/
theorem addTransaction_same_millisecond_duplicate_id :
    addTransaction "b" (JSNum.num 2) "Food" TxType.Expense "2024-01-01" 5
        [⟨"5", "a", JSNum.num 1, "Food", TxType.Expense, "2024-01-01"⟩]
      = some [⟨"5", "b", JSNum.num 2, "Food", TxType.Expense, "2024-01-01"⟩,
              ⟨"5", "a", JSNum.num 1, "Food", TxType.Expense, "2024-01-01"⟩]
    ∧ ¬ (List.map Transaction.id
          [⟨"5", "b", JSNum.num 2, "Food", TxType.Expense, "2024-01-01"⟩,
           ⟨"5", "a", JSNum.num 1, "Food", TxType.Expense, "2024-01-01"⟩]).Nodup := by
  decide

/-- C8 (amended): the id of a successful add is the decimal string of the
add-time millisecond `Date.now()`; it is fresh — and id-uniqueness of the
store is preserved across `addTransaction` and `deleteTx` — provided that
string differs from every id already stored (e.g. when the clock strictly
increases between adds).  Two adds in the same millisecond share an id. -/
theorem addTransaction_id_unique_when_clock_fresh :
    (∀ (description : String) (amount : JSNum) (category : String)
        (type : TxType) (date : String) (now : Nat) (s l' : List Transaction),
        addTransaction description amount category type date now s = some l' →
          l'.map Transaction.id = toString now :: s.map Transaction.id ∧
            (toString now ∉ s.map Transaction.id →
              (s.map Transaction.id).Nodup → (l'.map Transaction.id).Nodup)) ∧
      (∀ (id : String) (s : List Transaction),
        (s.map Transaction.id).Nodup → ((deleteTx id s).map Transaction.id).Nodup) := by
  constructor
  · intro description amount category type date now s l' h
    unfold addTransaction at h
    split at h
    · simp at h
    · injection h with h2
      subst h2
      refine ⟨rfl, fun hfresh hnd => ?_⟩
      rw [List.map_cons, List.nodup_cons]
      exact ⟨hfresh, hnd⟩
  · intro id s h
    exact h.sublist ((List.filter_sublist s).map Transaction.id)

/-- C8 witness: a concrete successful add at a fresh millisecond keeps the
stored ids distinct. -/
theorem addTransaction_id_unique_when_clock_fresh_witness :
    (List.map Transaction.id
        [⟨"7", "b", JSNum.num 2, "Food", TxType.Expense, "2024-01-01"⟩, txCoffee]).Nodup :=
  (addTransaction_id_unique_when_clock_fresh.1 "b" (JSNum.num 2) "Food"
      TxType.Expense "2024-01-01" 7 [txCoffee]
      [⟨"7", "b", JSNum.num 2, "Food", TxType.Expense, "2024-01-01"⟩, txCoffee]
      (by decide)).2 (by decide) (by decide)

theorem decodeTx_encodeTx (t : Transaction) (h : t.amount.isFinite = true) :
    decodeTx (encodeTx t) = some t := by
  rcases t with ⟨i, d, a, c, ty, dt⟩
  cases a with
  | num q => cases ty <;> rfl
  | nan => simp [JSNum.isFinite] at h
  | posInf => simp [JSNum.isFinite] at h
  | negInf => simp [JSNum.isFinite] at h

theorem decodeTxArr_map_encodeTx (l : List Transaction)
    (h : ∀ t ∈ l, t.amount.isFinite = true) :
    decodeTxArr (l.map encodeTx) = some l := by
  induction l with
  | nil => rfl
  | cons x xs ih =>
      have h1 := decodeTx_encodeTx x (h x (List.mem_cons_self x xs))
      have h2 := ih (fun t ht => h t (List.mem_cons_of_mem x ht))
      simp [decodeTxArr, h1, h2]

/-- C4: the persistence round trip.  For every record list whose amounts are
finite (the data model's valid records — `JSON.stringify` turns a non-finite
amount into `null`, which no longer reads back as the same record), saving
and then loading yields a JSON value that reads back as exactly the original
sequence: order and every field value are preserved. -/
theorem load_save_roundtrip (records : List Transaction)
    (h : ∀ t ∈ records, t.amount.isFinite = true) :
    decodeTxList (loadDoc (saveDoc records)) = some records := by
  simpa [saveDoc, loadDoc, encodeTxList, decodeTxList]
    using decodeTxArr_map_encodeTx records h

/-- C4 witness: the round trip at a concrete two-record list. -/
theorem load_save_roundtrip_witness :
    decodeTxList (loadDoc (saveDoc [txCoffee, txPaycheck]))
      = some [txCoffee, txPaycheck] :=
  load_save_roundtrip [txCoffee, txPaycheck] (by decide)

/-- C6 counterexample: the stored string `"42"` is truthy and `JSON.parse`
accepts it, so the initializer returns the number `42` as the component's
"record list" — not a sequence of records (it is not even an array), and not
the empty sequence the claim requires for content that is not a record
array. -/
theorem load_passes_through_nonarray_content :
    loadDoc (StoredDoc.parsed (Json.num 42)) = Json.num 42 ∧
      decodeTxList (Json.num 42) = none ∧
      Json.num 42 ≠ Json.arr [] :=
  ⟨rfl, rfl, fun h => Json.noConfusion h⟩

/-- C6 (amended): the initializer never surfaces an exception (it is total),
and returns the empty sequence exactly on a missing key, an empty stored
string, or content `JSON.parse` throws on; content that parses successfully
is returned as-is, with no schema validation, so it need not be a sequence
of records. -/
theorem loadDoc_characterisation :
    (∀ j : Json, loadDoc (StoredDoc.parsed j) = j) ∧
      decodeTxList (loadDoc StoredDoc.missing) = some [] ∧
      decodeTxList (loadDoc StoredDoc.empty) = some [] ∧
      decodeTxList (loadDoc StoredDoc.malformed) = some [] :=
  ⟨fun _ => rfl, rfl, rfl, rfl⟩

/-- C1 counterexample: a concrete mid-animation retargeting.  The animator
last completed at `100` (`prevBalance = 100`), is animating toward `300`,
and at the half-way frame displays `275` (`eased = 7/8`).  A new target
`200` then arrives: the new run starts from `100` — the stale previously
recorded target (`prevBalanceRef` is updated only on natural completion) —
and not from the displayed value `275`, so the display snaps back toward the
old value instead of continuing from where it was. -/
theorem retarget_starts_from_stale_target :
    stepFrame (startAnim ⟨JSNum.num 100, JSNum.num 100, none⟩ (JSNum.num 300) 1000) 1275
        = ⟨JSNum.num 100, JSNum.num 275, some ⟨JSNum.num 100, JSNum.num 300, 1000⟩⟩ ∧
      (startAnim ⟨JSNum.num 100, JSNum.num 275, some ⟨JSNum.num 100, JSNum.num 300, 1000⟩⟩
          (JSNum.num 200) 1300).run = some ⟨JSNum.num 100, JSNum.num 200, 1300⟩ ∧
      (JSNum.num 100 : JSNum) ≠ JSNum.num 275 := by
  refine ⟨?_, rfl, by decide⟩
  simp only [startAnim, stepFrame]
  norm_num [animDuration, easeOutCubic, JSNum.sub, JSNum.neg, JSNum.add, JSNum.mul,
    JSNum.toFixed2]

/-- C1 (amended): when a new target balance `b` arrives while the animator is
Animating, the in-flight run is cancelled (its scheduled frame is replaced)
and the new run goes toward `b` — but it starts from the previously recorded
target `prevBalanceRef.current` (only updated on natural completion), not
from the current displayed value: the frame fired right at retargeting time
displays (the rounding of) that previous target. -/
theorem retarget_cancels_and_restarts_from_prev_target (s : AnimState) (b : JSNum)
    (now : ℚ) (_hrun : s.run.isSome = true) (hp : s.prevBalance.isFinite = true)
    (hb : b.isFinite = true) :
    (startAnim s b now).run = some ⟨s.prevBalance, b, now⟩ ∧
      (stepFrame (startAnim s b now) now).displayBalance = s.prevBalance.toFixed2 := by
  refine ⟨rfl, ?_⟩
  cases hpv : s.prevBalance with
  | num p =>
      cases hbv : b with
      | num q =>
          simp only [startAnim, stepFrame, hpv, hbv]
          norm_num [animDuration, easeOutCubic, JSNum.sub, JSNum.neg, JSNum.add,
            JSNum.mul, JSNum.toFixed2]
      | nan => rw [hbv] at hb; simp [JSNum.isFinite] at hb
      | posInf => rw [hbv] at hb; simp [JSNum.isFinite] at hb
      | negInf => rw [hbv] at hb; simp [JSNum.isFinite] at hb
  | nan => rw [hpv] at hp; simp [JSNum.isFinite] at hp
  | posInf => rw [hpv] at hp; simp [JSNum.isFinite] at hp
  | negInf => rw [hpv] at hp; simp [JSNum.isFinite] at hp

/-- C1 witness: the amended behaviour at the counterexample's concrete
mid-animation state. -/
theorem retarget_cancels_and_restarts_from_prev_target_witness :
    (startAnim ⟨JSNum.num 100, JSNum.num 275, some ⟨JSNum.num 100, JSNum.num 300, 1000⟩⟩
        (JSNum.num 200) 1300).run = some ⟨JSNum.num 100, JSNum.num 200, 1300⟩ :=
  (retarget_cancels_and_restarts_from_prev_target
    ⟨JSNum.num 100, JSNum.num 275, some ⟨JSNum.num 100, JSNum.num 300, 1000⟩⟩
    (JSNum.num 200) 1300 rfl rfl rfl).1

/-- C7 counterexample: mounting with a persisted Income record of `1000`
computes an initial balance of `1000`, but the displayed value starts at `0`
(the `useState(0)` initial value) — also after the first animation frame —
rather than equalling the initial balance immediately. -/
theorem mount_display_not_initial_balance :
    balance [txPaycheck] = JSNum.num 1000 ∧
      (startAnim animInit (balance [txPaycheck]) 0).displayBalance = JSNum.num 0 ∧
      (stepFrame (startAnim animInit (balance [txPaycheck]) 0) 0).displayBalance
        = JSNum.num 0 ∧
      (JSNum.num 0 : JSNum) ≠ JSNum.num 1000 := by
  have hbal : balance [txPaycheck] = JSNum.num 1000 := by
    norm_num [balance, txPaycheck, JSNum.add]
  refine ⟨hbal, rfl, ?_, by decide⟩
  rw [hbal]
  simp only [startAnim, stepFrame, animInit]
  norm_num [animDuration, easeOutCubic, JSNum.sub, JSNum.neg, JSNum.add, JSNum.mul,
    JSNum.toFixed2]

/-- C7 (amended): on mount the effect starts a full-length count-up from `0`
(`prevBalanceRef` starts at `0`), not a zero-duration settle: the displayed
value is `0` until frames run, the mount run is `0 → balance`, and only a
frame at least `duration = 550` after the start displays the (2-decimal
rounding of the) initial balance, completing the run.  Display equals the
initial balance immediately only when that balance is `0`. -/
theorem mount_counts_up_from_zero (records : List Transaction) (t0 now : ℚ)
    (hb : (balance records).isFinite = true) :
    (startAnim animInit (balance records) t0).displayBalance = JSNum.num 0 ∧
      (startAnim animInit (balance records) t0).run
        = some ⟨JSNum.num 0, balance records, t0⟩ ∧
      (550 ≤ now - t0 →
        stepFrame (startAnim animInit (balance records) t0) now
          = ⟨balance records, (balance records).toFixed2, none⟩) := by
  refine ⟨rfl, rfl, fun hlate => ?_⟩
  cases hbv : balance records with
  | num q =>
      have hone : min 1 ((now - t0) / animDuration) = 1 := by
        rw [min_eq_left]
        rw [le_div_iff₀ (by norm_num [animDuration] : (0 : ℚ) < animDuration)]
        rw [animDuration]
        linarith
      simp only [startAnim, stepFrame, animInit, hbv, hone]
      norm_num [easeOutCubic, JSNum.sub, JSNum.neg, JSNum.add, JSNum.mul,
        JSNum.toFixed2]
  | nan => rw [hbv] at hb; simp [JSNum.isFinite] at hb
  | posInf => rw [hbv] at hb; simp [JSNum.isFinite] at hb
  | negInf => rw [hbv] at hb; simp [JSNum.isFinite] at hb

/-- C7 witness: the amended behaviour at a concrete one-record store. -/
theorem mount_counts_up_from_zero_witness :
    (startAnim animInit (balance [txPaycheck]) 0).displayBalance = JSNum.num 0 ∧
      stepFrame (startAnim animInit (balance [txPaycheck]) 0) 550
        = ⟨balance [txPaycheck], (balance [txPaycheck]).toFixed2, none⟩ :=
  ⟨(mount_counts_up_from_zero [txPaycheck] 0 550 (by decide)).1,
    (mount_counts_up_from_zero [txPaycheck] 0 550 (by decide)).2.2 (by simp)⟩

theorem getProp_isSome_iff_mem (o : List (String × JSNum)) (c : String) :
    (getProp o c).isSome = true ↔ c ∈ o.map Prod.fst := by
  induction o with
  | nil => simp [getProp]
  | cons kv o ih =>
      obtain ⟨k, v⟩ := kv
      by_cases h : k = c
      · subst h
        simp [getProp]
      · simp only [getProp, if_neg h, List.map_cons, List.mem_cons, ih]
        constructor
        · exact Or.inr
        · rintro (rfl | hm)
          · exact absurd rfl h
          · exact hm

theorem getProp_mem (o : List (String × JSNum)) (c : String) (v : JSNum)
    (h : getProp o c = some v) : (c, v) ∈ o := by
  induction o with
  | nil => simp [getProp] at h
  | cons kv o ih =>
      obtain ⟨k, w⟩ := kv
      rw [getProp] at h
      by_cases hk : k = c
      · rw [if_pos hk] at h
        obtain rfl := Option.some.inj h
        subst hk
        exact List.mem_cons_self _ _
      · rw [if_neg hk] at h
        exact List.mem_cons_of_mem _ (ih h)

theorem keys_update (o : List (String × JSNum)) (k : String) (v : JSNum) :
    (o.map (fun kv => if kv.1 = k then (k, v) else kv)).map Prod.fst
      = o.map Prod.fst := by
  induction o with
  | nil => rfl
  | cons kv o ih =>
      obtain ⟨k1, v1⟩ := kv
      rw [List.map_cons]
      by_cases h : k1 = k
      · subst h
        rw [if_pos rfl, List.map_cons, List.map_cons, ih]
      · rw [show (if ((k1, v1) : String × JSNum).1 = k then (k, v) else (k1, v1))
            = (k1, v1) from if_neg h]
        rw [List.map_cons, List.map_cons, ih]

theorem getProp_update_self (o : List (String × JSNum)) (k : String) (v : JSNum)
    (h : (getProp o k).isSome = true) :
    getProp (o.map (fun kv => if kv.1 = k then (k, v) else kv)) k = some v := by
  induction o with
  | nil => simp [getProp] at h
  | cons kv o ih =>
      obtain ⟨k1, v1⟩ := kv
      rw [List.map_cons]
      by_cases hk : k1 = k
      · subst hk
        rw [if_pos rfl, getProp, if_pos rfl]
      · rw [show (if ((k1, v1) : String × JSNum).1 = k then (k, v) else (k1, v1))
            = (k1, v1) from if_neg hk]
        rw [getProp, if_neg hk]
        rw [getProp, if_neg hk] at h
        exact ih h

theorem getProp_update_ne (o : List (String × JSNum)) (k : String) (v : JSNum)
    (c : String) (hc : c ≠ k) :
    getProp (o.map (fun kv => if kv.1 = k then (k, v) else kv)) c = getProp o c := by
  induction o with
  | nil => rfl
  | cons kv o ih =>
      obtain ⟨k1, v1⟩ := kv
      rw [List.map_cons]
      by_cases hk : k1 = k
      · subst hk
        rw [if_pos rfl, getProp, getProp, if_neg (fun h => hc h.symm)]
        by_cases h1 : k1 = c
        · exact absurd h1.symm hc
        · rw [if_neg h1, ih]
      · rw [show (if ((k1, v1) : String × JSNum).1 = k then (k, v) else (k1, v1))
            = (k1, v1) from if_neg hk]
        rw [getProp, getProp]
        by_cases h1 : k1 = c
        · rw [if_pos h1, if_pos h1]
        · rw [if_neg h1, if_neg h1, ih]

theorem getProp_append_single_self (o : List (String × JSNum)) (k : String)
    (v : JSNum) (h : (getProp o k).isSome = false) :
    getProp (o ++ [(k, v)]) k = some v := by
  induction o with
  | nil => rw [List.nil_append, getProp, if_pos rfl]
  | cons kv o ih =>
      obtain ⟨k1, v1⟩ := kv
      by_cases h1 : k1 = k
      · rw [getProp, if_pos h1] at h
        simp at h
      · rw [getProp, if_neg h1] at h
        rw [List.cons_append, getProp, if_neg h1]
        exact ih h

theorem getProp_append_single_ne (o : List (String × JSNum)) (k : String)
    (v : JSNum) (c : String) (hc : c ≠ k) :
    getProp (o ++ [(k, v)]) c = getProp o c := by
  induction o with
  | nil =>
      simp only [List.nil_append, getProp]
      rw [if_neg (fun h => hc h.symm)]
  | cons kv o ih =>
      obtain ⟨k1, v1⟩ := kv
      rw [List.cons_append, getProp, getProp]
      by_cases h1 : k1 = c
      · rw [if_pos h1, if_pos h1]
      · rw [if_neg h1, if_neg h1, ih]

theorem getProp_setProp_self (o : List (String × JSNum)) (k : String) (v : JSNum) :
    getProp (setProp o k v) k = some v := by
  unfold setProp
  split
  · exact getProp_update_self o k v (by assumption)
  · rename_i h
    rw [getProp_append_single_self]
    rcases hg : getProp o k with _ | w
    · rfl
    · rw [hg] at h
      simp at h

theorem getProp_setProp_ne (o : List (String × JSNum)) (k : String) (v : JSNum)
    (c : String) (hc : c ≠ k) :
    getProp (setProp o k v) c = getProp o c := by
  unfold setProp
  split
  · exact getProp_update_ne o k v c hc
  · exact getProp_append_single_ne o k v c hc

theorem firstSeen_filter_comm (c : String) (l : List String) :
    firstSeen (l.filter (fun x => decide (x ≠ c)))
      = (firstSeen l).filter (fun x => decide (x ≠ c)) := by
  induction l with
  | nil => rfl
  | cons k l ih =>
      by_cases hk : k = c
      · subst hk
        rw [List.filter_cons_of_neg (by simp)]
        rw [firstSeen]
        rw [List.filter_cons_of_neg (by simp)]
        rw [List.filter_filter]
        rw [ih]
        exact List.filter_congr fun a _ => (Bool.and_self _).symm
      · rw [List.filter_cons_of_pos (by simp [hk])]
        rw [firstSeen, firstSeen]
        rw [ih]
        rw [List.filter_cons_of_pos (by simp [hk])]
        rw [List.filter_filter, List.filter_filter]
        exact congrArg (k :: ·) (List.filter_congr fun a _ => Bool.and_comm _ _)

theorem filter_notMem_append_singleton (keys : List String) (c : String)
    (X : List String) :
    X.filter (fun x => decide (x ∉ keys ++ [c]))
      = (X.filter (fun x => decide (x ∉ keys))).filter (fun x => decide (x ≠ c)) := by
  rw [List.filter_filter]
  refine (List.filter_congr fun a _ => ?_).symm
  by_cases h1 : a ∈ keys <;> by_cases h2 : a = c <;> simp [h1, h2, List.mem_append]

theorem grouped_keys_aux (L : List Transaction) (acc : List (String × JSNum)) :
    (L.foldl groupStep acc).map Prod.fst
      = acc.map Prod.fst ++ firstSeen ((L.map Transaction.category).filter
          (fun c => decide (c ∉ acc.map Prod.fst))) := by
  induction L generalizing acc with
  | nil => simp [firstSeen]
  | cons t L ih =>
      rw [List.foldl_cons, ih (groupStep acc t), List.map_cons]
      by_cases hmem : (getProp acc t.category).isSome = true
      · have hkeys : (groupStep acc t).map Prod.fst = acc.map Prod.fst := by
          unfold groupStep setProp
          rw [if_pos hmem]
          exact keys_update _ _ _
        have hc : t.category ∈ acc.map Prod.fst :=
          (getProp_isSome_iff_mem _ _).mp hmem
        rw [hkeys]
        rw [List.filter_cons_of_neg (by simp [hc])]
      · have hkeys : (groupStep acc t).map Prod.fst
            = acc.map Prod.fst ++ [t.category] := by
          unfold groupStep setProp
          rw [if_neg hmem, List.map_append]
          rfl
        have hc : t.category ∉ acc.map Prod.fst :=
          fun hm => hmem ((getProp_isSome_iff_mem acc t.category).mpr hm)
        rw [hkeys]
        rw [List.filter_cons_of_pos (by simp [hc])]
        rw [firstSeen]
        rw [filter_notMem_append_singleton]
        rw [firstSeen_filter_comm]
        rw [List.append_assoc]
        rfl

theorem jsOrZero_add_finite (w : Option JSNum) (a : JSNum)
    (hw : ∀ v, w = some v → v.isFinite = true) (ha : a.isFinite = true) :
    (jsOrZero w).add a = JSNum.num (optRat w + a.ratVal) := by
  cases a with
  | num qa =>
      cases w with
      | none => simp [jsOrZero, optRat, JSNum.add, JSNum.ratVal]
      | some v =>
          have hv := hw v rfl
          cases v with
          | num q =>
              by_cases hq : q = 0
              · subst hq
                simp [jsOrZero, JSNum.falsy, optRat, JSNum.add, JSNum.ratVal]
              · simp [jsOrZero, JSNum.falsy, hq, optRat, JSNum.add, JSNum.ratVal]
          | nan => simp [JSNum.isFinite] at hv
          | posInf => simp [JSNum.isFinite] at hv
          | negInf => simp [JSNum.isFinite] at hv
  | nan => simp [JSNum.isFinite] at ha
  | posInf => simp [JSNum.isFinite] at ha
  | negInf => simp [JSNum.isFinite] at ha

theorem valsFinite_setProp (o : List (String × JSNum)) (k : String) (v : JSNum)
    (ho : ∀ p ∈ o, p.2.isFinite = true) (hv : v.isFinite = true) :
    ∀ p ∈ setProp o k v, p.2.isFinite = true := by
  intro p hp
  unfold setProp at hp
  split at hp
  · obtain ⟨q, hq, hpq⟩ := List.mem_map.mp hp
    by_cases h : q.1 = k
    · rw [if_pos h] at hpq
      rw [← hpq]
      exact hv
    · rw [if_neg h] at hpq
      rw [← hpq]
      exact ho q hq
  · rcases List.mem_append.mp hp with hm | hm
    · exact ho p hm
    · rw [List.mem_singleton] at hm
      rw [hm]
      exact hv

theorem valsFinite_groupStep (acc : List (String × JSNum)) (t : Transaction)
    (hacc : ∀ p ∈ acc, p.2.isFinite = true) (ha : t.amount.isFinite = true) :
    ∀ p ∈ groupStep acc t, p.2.isFinite = true := by
  apply valsFinite_setProp _ _ _ hacc
  rw [jsOrZero_add_finite _ _ (fun v hv => hacc _ (getProp_mem _ _ _ hv)) ha]
  rfl

/-- The rational total of the records of category `c` in a list. -/
def catSumOf (L : List Transaction) (c : String) : ℚ :=
  ((L.filter (fun t => decide (t.category = c))).map (fun t => t.amount.ratVal)).sum

theorem catSumOf_cons_self (t : Transaction) (L : List Transaction) :
    catSumOf (t :: L) t.category = t.amount.ratVal + catSumOf L t.category := by
  unfold catSumOf
  rw [List.filter_cons_of_pos (by simp), List.map_cons, List.sum_cons]

theorem catSumOf_cons_ne (t : Transaction) (L : List Transaction) (c : String)
    (h : ¬ t.category = c) :
    catSumOf (t :: L) c = catSumOf L c := by
  unfold catSumOf
  rw [List.filter_cons_of_neg (by simp [h])]

theorem grouped_fold_getProp (L : List Transaction) (acc : List (String × JSNum))
    (c : String) (hacc : ∀ p ∈ acc, p.2.isFinite = true)
    (hL : ∀ t ∈ L, t.amount.isFinite = true) :
    getProp (L.foldl groupStep acc) c
      = if (getProp acc c).isSome = true ∨ c ∈ L.map Transaction.category
        then some (JSNum.num (optRat (getProp acc c) + catSumOf L c))
        else none := by
  induction L generalizing acc with
  | nil =>
      rw [List.foldl_nil]
      rcases hg : getProp acc c with _ | v
      · rw [if_neg (by simp [hg])]
      · rw [if_pos (by simp [hg])]
        have hv := hacc _ (getProp_mem _ _ _ hg)
        cases v with
        | num q => simp [optRat, catSumOf]
        | nan => simp [JSNum.isFinite] at hv
        | posInf => simp [JSNum.isFinite] at hv
        | negInf => simp [JSNum.isFinite] at hv
  | cons t L ih =>
      rw [List.foldl_cons]
      have ha : t.amount.isFinite = true := hL t (List.mem_cons_self _ _)
      have hacc2 := valsFinite_groupStep acc t hacc ha
      have hL2 : ∀ x ∈ L, x.amount.isFinite = true :=
        fun x hx => hL x (List.mem_cons_of_mem _ hx)
      rw [ih (groupStep acc t) hacc2 hL2]
      by_cases hc : t.category = c
      · subst hc
        have hset : getProp (groupStep acc t) t.category
            = some ((jsOrZero (getProp acc t.category)).add t.amount) := by
          unfold groupStep
          exact getProp_setProp_self _ _ _
        rw [hset,
          jsOrZero_add_finite _ _ (fun v hv => hacc _ (getProp_mem _ _ _ hv)) ha]
        rw [catSumOf_cons_self]
        simp only [Option.isSome_some, List.map_cons, List.mem_cons, optRat,
          eq_self_iff_true, true_or, or_true, if_true]
        rw [add_assoc]
      · have hne : ¬ c = t.category := fun hh => hc hh.symm
        have hset : getProp (groupStep acc t) c = getProp acc c := by
          unfold groupStep
          exact getProp_setProp_ne _ _ _ _ hne
        rw [hset, catSumOf_cons_ne t L c hc]
        exact if_congr (by simp [hne]) rfl rfl

theorem grouped_keys (transactions : List Transaction) :
    (grouped transactions).map Prod.fst
      = firstSeen ((expenseTx transactions).map Transaction.category) := by
  have h := grouped_keys_aux (expenseTx transactions) []
  simpa [grouped] using h

/-- A third sample record (Expense, another category) for witnesses. -/
def txBus : Transaction :=
  ⟨"3", "Bus", JSNum.num 2, "Transport", TxType.Expense, "2024-01-03"⟩

/-- C5 counterexample: with Expense records in categories "Food" and then
"0", the chart labels are `Object.keys` of the grouped object, and ES
`OrdinaryOwnPropertyKeys` lists the array-index key "0" *first* — so the
labels read ["0", "Food"], not the first-seen order ["Food", "0"] the claim
requires. -/
theorem chartLabels_not_first_seen_order :
    chartLabels
        [⟨"a", "lunch", JSNum.num 1, "Food", TxType.Expense, "2024-01-01"⟩,
         ⟨"b", "misc", JSNum.num 2, "0", TxType.Expense, "2024-01-02"⟩]
      = ["0", "Food"] ∧
      firstSeen ((expenseTx
          [⟨"a", "lunch", JSNum.num 1, "Food", TxType.Expense, "2024-01-01"⟩,
           ⟨"b", "misc", JSNum.num 2, "0", TxType.Expense, "2024-01-02"⟩]).map
            Transaction.category)
        = ["Food", "0"] ∧
      (["0", "Food"] : List String) ≠ ["Food", "0"] :=
  ⟨by decide, by decide, by decide⟩

/-- C5 (amended): `grouped` considers only Expense records (Income excluded),
groups them by exact, case-sensitive category label summing their (finite)
amounts, and its underlying map holds the categories in first-seen order of
the filtered list — but the rendered label list (`Object.keys`) moves
array-index-shaped labels such as "0" or "42" to the front in ascending
numeric order, per ES property ordering; only the remaining labels appear in
first-seen order. -/
theorem categoryTotals_characterisation (transactions : List Transaction)
    (h : ∀ t ∈ transactions, t.amount.isFinite = true) :
    (grouped transactions).map Prod.fst
        = firstSeen ((expenseTx transactions).map Transaction.category) ∧
      (∀ c, getProp (grouped transactions) c
          = if c ∈ (expenseTx transactions).map Transaction.category
            then some (JSNum.num (catSumOf (expenseTx transactions) c))
            else none) ∧
      chartLabels transactions
        = sortByVal
            ((firstSeen ((expenseTx transactions).map Transaction.category)).filter
              isArrayIndex)
          ++ (firstSeen ((expenseTx transactions).map Transaction.category)).filter
              (fun k => ! isArrayIndex k) := by
  have hexp : ∀ t ∈ expenseTx transactions, t.amount.isFinite = true :=
    fun t ht => h t (List.mem_filter.mp ht).1
  refine ⟨grouped_keys transactions, fun c => ?_, ?_⟩
  · have hb := grouped_fold_getProp (expenseTx transactions) [] c (by simp) hexp
    simpa [grouped, getProp, optRat] using hb
  · rw [chartLabels, objectKeys, grouped_keys transactions]

/-- C5 witness: grouping at a concrete mixed store (two Expense categories,
one Income record). -/
theorem categoryTotals_characterisation_witness :
    (grouped [txCoffee, txPaycheck, txBus]).map Prod.fst
        = firstSeen ((expenseTx [txCoffee, txPaycheck, txBus]).map
            Transaction.category) ∧
      getProp (grouped [txCoffee, txPaycheck, txBus]) "Food"
        = (if "Food" ∈ (expenseTx [txCoffee, txPaycheck, txBus]).map
              Transaction.category
           then some (JSNum.num (catSumOf (expenseTx [txCoffee, txPaycheck, txBus])
               "Food"))
           else none) :=
  ⟨(categoryTotals_characterisation [txCoffee, txPaycheck, txBus] (by decide)).1,
    (categoryTotals_characterisation [txCoffee, txPaycheck, txBus] (by decide)).2.1
      "Food"⟩
